import Mathlib

/-!
Verification of the getharvest-backup tool (TypeScript sources).

The embedding below follows the code of `HarvestClient.fetchEndpoint`,
`BackupService` (`backupAll` / `backupAccount` / `backupEndpoint` /
`getAccountDirectory` / `getEndpointFilename` / `sanitizeFilename`) and
the configuration constants of `config.ts`.  JSON response bodies are
modelled by an inductive `Json` type; the HTTP layer is modelled by a
function from the page number of a request to the outcome the server
produces for it; the event loop's `while` is modelled by fuel-indexed
recursion (the extra `Option` layer is `none` exactly when the fuel runs
out before the loop terminates).
-/

namespace HarvestBackup

/-- JSON values, as delivered by axios after parsing a response body. -/
inductive Json where
  | null : Json
  | bool : Bool → Json
  | num : Int → Json
  | str : String → Json
  | arr : List Json → Json
  | obj : List (String × Json) → Json

/-- JavaScript `Array.isArray`. -/
def Json.isArr : Json → Bool
  | .arr _ => true
  | _ => false

/-- Test for the JSON `null` value (JavaScript `v !== null` is `!v.isNull`). -/
def Json.isNull : Json → Bool
  | .null => true
  | _ => false

/-- Association-list lookup: JavaScript property access `o[k]` on an object
whose key/value pairs are kept in insertion order. -/
def assocGet {β : Type} : List (String × β) → String → Option β
  | [], _ => none
  | (k', v') :: rest, k => if k' = k then some v' else assocGet rest k

/-- Association-list update: set key `k` to `v`, replacing the first existing
binding or appending a new one. -/
def assocSet {β : Type} : List (String × β) → String → β → List (String × β)
  | [], k, v => [(k, v)]
  | (k', v') :: rest, k, v =>
      if k' = k then (k, v) :: rest else (k', v') :: assocSet rest k v

/-- `HarvestClient.findResourceKey`: the first top-level key of the response
object whose value is an array and whose name is not `"links"`
(`Object.keys(data).find(key => Array.isArray(data[key]) && key !== 'links')`). -/
def findResourceKey (data : Json) : Option String :=
  match data with
  | .obj kvs => (kvs.find? fun kv => kv.2.isArr && kv.1 != "links").map (·.1)
  | _ => none

/-- The records appended by one successful page iteration of `fetchEndpoint`:
`if (resourceKey && Array.isArray(data[resourceKey])) results.push(...data[resourceKey])`. -/
def recordsOf (data : Json) : List Json :=
  match data with
  | .obj kvs =>
      match findResourceKey data with
      | some k =>
          match assocGet kvs k with
          | some (.arr xs) => xs
          | _ => []
      | none => []
  | _ => []

/-- `HarvestClient.hasNextPage`:
`data.links?.next !== undefined && data.links?.next !== null`. -/
def hasNextPage (data : Json) : Bool :=
  match data with
  | .obj kvs =>
      match assocGet kvs "links" with
      | some (.obj lkvs) =>
          match assocGet lkvs "next" with
          | some v => !v.isNull
          | none => false
      | _ => false
  | _ => false

/-- Outcome of one HTTP GET as seen through axios: a parsed 2xx body, an
axios error carrying a response status, or a network-level failure
(axios error whose `response` is `undefined`). -/
inductive HttpResult where
  | ok (data : Json)
  | httpErr (status : Nat)
  | netErr

/-- The one error `fetchEndpoint` can throw: the plain
`Error("Failed to fetch <endpoint>: <status> <statusText>")`; for a
network-level failure `error.response` is `undefined` and the status part
of the message is `undefined`, modelled as `none`. -/
inductive FetchErr where
  | fetchFailed (endpoint : String) (status : Option Nat)
deriving DecidableEq

/-- The `while (hasMore)` loop of `HarvestClient.fetchEndpoint`, with the
server abstracted as a map from the `page` query parameter to the HTTP
outcome, and fuel bounding the number of iterations (`none` = fuel ran
out).  The returned trace lists the `page` parameter of every request
issued, in order. -/
def fetchLoop (server : Nat → HttpResult) (endpoint : String) :
    Nat → Nat → List Nat → List Json →
    Option (List Nat × Except FetchErr (List Json))
  | 0, _, _, _ => none
  | fuel + 1, page, trace, results =>
      match server page with
      | .ok data =>
          let results := results ++ recordsOf data
          let trace := trace ++ [page]
          if hasNextPage data then
            fetchLoop server endpoint fuel (page + 1) trace results
          else
            some (trace, .ok results)
      | .httpErr status =>
          if status = 404 then
            some (trace ++ [page], .ok results)
          else
            some (trace ++ [page], .error (.fetchFailed endpoint (some status)))
      | .netErr =>
          some (trace ++ [page], .error (.fetchFailed endpoint none))

/-- `HarvestClient.fetchEndpoint`: start the pagination loop at page 1 with
no accumulated results. -/
def fetchEndpoint (server : Nat → HttpResult) (endpoint : String) (fuel : Nat) :
    Option (List Nat × Except FetchErr (List Json)) :=
  fetchLoop server endpoint fuel 1 [] []

/-- A Harvest account as returned by account discovery
(`HarvestClient.getAccounts`). -/
structure HarvestAccount where
  id : Nat
  name : String
  product : String

/-- `BackupService.sanitizeFilename`:
`filename.replace(/[^a-z0-9_\-]/gi, '_')` — every character outside ASCII
letters, digits, underscore and hyphen becomes an underscore. -/
def sanitizeChar (c : Char) : Char :=
  if c.isAlpha || c.isDigit || c = '_' || c = '-' then c else '_'

/-- `BackupService.sanitizeFilename` applied to a whole string. -/
def sanitizeFilename (s : String) : String :=
  String.mk (s.data.map sanitizeChar)

/-- The directory name chosen by `BackupService.getAccountDirectory`
(the component joined under the output directory):
`sanitizeFilename(`<id>-<name>`)`. -/
def accountDirName (a : HarvestAccount) : String :=
  sanitizeFilename (toString a.id ++ "-" ++ a.name)

/-- `BackupService.getEndpointFilename`:
`endpoint.replace(/\//g, '_') + '.json'`. -/
def getEndpointFilename (endpoint : String) : String :=
  String.mk (endpoint.data.map fun c => if c = '/' then '_' else c) ++ ".json"

/-- The ordered endpoint catalog the backup walks: the `endpoints` list of
`BackupService` (identical to the `HARVEST_ENDPOINTS` catalog of the
configuration module). -/
def HARVEST_ENDPOINTS : List String :=
  ["company", "users", "users/me", "clients", "contacts", "projects",
   "tasks", "task_assignments", "user_assignments", "time_entries",
   "expenses", "expense_categories", "invoices", "invoice_item_categories",
   "invoice_messages", "invoice_payments", "estimates",
   "estimate_item_categories", "estimate_messages", "roles",
   "project_assignments"]

/-- JSON serialization of a `HarvestAccount` (what `saveJson` writes to
`account.json`). -/
def accountJson (a : HarvestAccount) : Json :=
  .obj [("id", .num a.id), ("name", .str a.name), ("product", .str a.product)]

/-- A directory of files: path component mapped to the JSON written there.
`fs.writeFile` over an existing path overwrites it (`assocSet`). -/
def writeFile (fs : List (String × Json)) (path : String) (content : Json) :
    List (String × Json) :=
  assocSet fs path content

/-- `BackupService.backupEndpoint` acting on the account directory:
the `fetchRes` argument is the outcome of the awaited
`fetchEndpoint` call (its return value, or the error it threw).  A thrown
error is caught (`catch` → `Logger.debug('Skipped: ...')`) and the
directory is untouched; a successful fetch writes
`<endpoint with / replaced by _>.json` only when at least one record came
back, and logs `No data found` (writing nothing) otherwise. -/
def backupEndpointFs (fs : List (String × Json))
    (fetchRes : Except FetchErr (List Json)) (endpoint : String) :
    List (String × Json) :=
  match fetchRes with
  | .ok data =>
      if data.length > 0 then
        writeFile fs (getEndpointFilename endpoint) (.arr data)
      else
        fs
  | .error _ => fs

/-- The endpoint loop of `BackupService.backupAccount`: visit the catalog in
order, threading the account directory through `backupEndpoint`.
`fetch` gives, per endpoint, the outcome of `fetchEndpoint` for it. -/
def backupEndpoints (fetch : String → Except FetchErr (List Json)) :
    List String → List (String × Json) → List (String × Json)
  | [], fs => fs
  | e :: rest, fs => backupEndpoints fetch rest (backupEndpointFs fs (fetch e) e)

/-- `BackupService.backupAccount`: create the account directory, save
`account.json`, then back up every cataloged endpoint.  Returns the
files of the account directory. -/
def backupAccount (a : HarvestAccount)
    (fetch : String → Except FetchErr (List Json)) : List (String × Json) :=
  backupEndpoints fetch HARVEST_ENDPOINTS [("account.json", accountJson a)]

/-- `BackupService.backupAll`: discover accounts (`accountsRes` is the
outcome of `getAccounts`, whose failure propagates and aborts the run),
then back up each account in order.  Per-endpoint failures are consumed
inside `backupEndpoint` and never escape. -/
def backupAll (accountsRes : Except String (List HarvestAccount))
    (fetch : HarvestAccount → String → Except FetchErr (List Json)) :
    Except String (List (String × List (String × Json))) :=
  match accountsRes with
  | .error e => .error e
  | .ok accounts =>
      .ok (accounts.map fun a => (accountDirName a, backupAccount a (fetch a)))

/-- A synthetic paginated endpoint built from a list of pages of records:
page `k` (1-based) answers with its records under the `"records"` key and a
`links.next` cue exactly when further pages exist; out-of-range pages
answer 404. -/
def mkPageData (records : List Json) (hasNext : Bool) : Json :=
  .obj [("records", .arr records),
        ("links", if hasNext then .obj [("next", .str "next-url")] else .obj [])]

/-- The server of the synthetic endpoint for a list of pages. -/
def synthServer (pages : List (List Json)) (k : Nat) : HttpResult :=
  match k, pages.drop (k - 1) with
  | 0, _ => .httpErr 500
  | _ + 1, [] => .httpErr 404
  | _ + 1, r :: rest => .ok (mkPageData r (!rest.isEmpty))

/-- Modelled from the spec: the continuation rule it states for the fetcher
("prefer an explicit next-page-number field if present; otherwise inspect a
nested pagination-links object for a next URL; absence of both ⇒
terminate"), written out for comparison with the code's `hasNextPage`. -/
def specContinuation (data : Json) : Bool :=
  match data with
  | .obj kvs =>
      match assocGet kvs "next_page" with
      | some v => !v.isNull
      | none =>
          match assocGet kvs "links" with
          | some (.obj lkvs) =>
              match assocGet lkvs "next" with
              | some v => !v.isNull
              | none => false
          | _ => false
  | _ => false

/-- Decision of the incremental artifact writer. -/
inductive WriteDecision where
  | written
  | skipped
deriving DecidableEq

/-- State acted on by the incremental artifact writer: the in-memory
manifest, the binary files on disk (path mapped to bytes), and the
persisted copy of the manifest. -/
structure ArtifactState where
  manifest : List (String × String)
  fs : List (String × List Nat)
  persistedManifest : List (String × String)
deriving DecidableEq

/-- Modelled from the spec: `maybe_write`, the incremental artifact writer of
the Python variant, whose source is not under src/ (the repository README
documents it; only the spec describes its algorithm).  Per spec §4.2:
compute `digest = hash(content_bytes)`; if the manifest has no entry for
`artifact_id`, or its entry differs from `digest`, write the bytes to the
destination, set the manifest entry, persist the manifest and return
`written`; otherwise return `skipped` touching nothing.  The hash is an
arbitrary deterministic function parameter. -/
def maybe_write (hash : List Nat → String) (artifactId : String)
    (content : List Nat) (destPath : String) (st : ArtifactState) :
    WriteDecision × ArtifactState :=
  let digest := hash content
  match assocGet st.manifest artifactId with
  | some d =>
      if d = digest then
        (.skipped, st)
      else
        let m := assocSet st.manifest artifactId digest
        (.written,
          { manifest := m, fs := assocSet st.fs destPath content,
            persistedManifest := m })
  | none =>
      let m := assocSet st.manifest artifactId digest
      (.written,
        { manifest := m, fs := assocSet st.fs destPath content,
          persistedManifest := m })

/-! ## Helper lemmas -/

theorem assocGet_assocSet_self {β : Type} (m : List (String × β)) (k : String) (v : β) :
    assocGet (assocSet m k v) k = some v := by
  induction m with
  | nil => simp [assocGet, assocSet]
  | cons kv rest ih =>
      by_cases h : kv.1 = k
      · simp [assocSet, assocGet, h]
      · simp [assocSet, assocGet, h, ih]

theorem recordsOf_mkPageData (r : List Json) (b : Bool) :
    recordsOf (mkPageData r b) = r := rfl

theorem hasNextPage_mkPageData (r : List Json) (b : Bool) :
    hasNextPage (mkPageData r b) = b := by
  cases b <;> rfl

theorem Json.isNull_false_iff (v : Json) : v.isNull = false ↔ v ≠ .null := by
  cases v <;> simp [Json.isNull]

/-- Behaviour of the pagination loop on the synthetic endpoint, generalized
over the starting page: beginning at page `s` with the remaining pages being
`pages`, the loop issues exactly the requests `s, s+1, …` and accumulates
the remaining records in order, using one unit of fuel per page. -/
theorem fetchLoop_synth (all : List (List Json)) (ep : String) :
    ∀ (pages : List (List Json)) (s : Nat) (trace : List Nat) (acc : List Json),
      1 ≤ s → all.drop (s - 1) = pages → pages ≠ [] →
      fetchLoop (synthServer all) ep pages.length s trace acc
        = some (trace ++ List.range' s pages.length, .ok (acc ++ pages.flatten)) := by
  intro pages
  induction pages with
  | nil => intro s trace acc _ _ h; exact absurd rfl h
  | cons r rest ih =>
      intro s trace acc hs hdrop _
      obtain ⟨m, rfl⟩ : ∃ m, s = m + 1 := ⟨s - 1, (Nat.succ_pred_eq_of_pos hs).symm⟩
      have hdrop' : all.drop m = r :: rest := by simpa using hdrop
      have hserver : synthServer all (m + 1) = .ok (mkPageData r (!rest.isEmpty)) := by
        unfold synthServer
        simp [hdrop']
      rw [List.length_cons, fetchLoop, hserver]
      simp only [recordsOf_mkPageData, hasNextPage_mkPageData]
      cases rest with
      | nil =>
          simp [List.range'_one]
      | cons a rest' =>
          have hdrop2 : all.drop (m + 1) = a :: rest' := by
            have h2 := List.drop_drop 1 m all
            rw [hdrop'] at h2
            simpa [Nat.add_comm] using h2.symm
          have hrec := ih (m + 1 + 1) (trace ++ [m + 1]) (acc ++ r) (by omega)
            (by simpa using hdrop2) (by simp)
          simp only [List.isEmpty_cons, Bool.not_false, if_true, List.length_cons] at hrec ⊢
          rw [hrec, List.range'_succ]
          simp [List.flatten_cons, List.append_assoc, List.range'_succ]

/-- C1.  Pagination completeness: for a synthetic endpoint serving its
records over `P` non-empty-cued pages, `fetchEndpoint` returns every record
in response order (page order, within-page order preserved) and issues
exactly `P` requests with `page` parameters `1` through `P`. -/
theorem fetchEndpoint_pagination_complete (ep : String)
    (pages : List (List Json)) (h : pages ≠ []) :
    fetchEndpoint (synthServer pages) ep pages.length
      = some (List.range' 1 pages.length, .ok pages.flatten) := by
  have hmain := fetchLoop_synth pages ep pages 1 [] [] (le_refl 1) (by simp) h
  simpa [fetchEndpoint] using hmain

/-- Witness for C1: two pages carrying records `[1, 2]` and `[3]` yield the
three records in order via exactly the two requests `page=1`, `page=2`. -/
theorem fetchEndpoint_pagination_complete_witness :
    ([[Json.num 1, Json.num 2], [Json.num 3]] : List (List Json)) ≠ [] ∧
    fetchEndpoint (synthServer [[Json.num 1, Json.num 2], [Json.num 3]]) "users" 2
      = some ([1, 2], .ok [Json.num 1, Json.num 2, Json.num 3]) := by
  refine ⟨by simp, ?_⟩
  have h := fetchEndpoint_pagination_complete "users"
    [[Json.num 1, Json.num 2], [Json.num 3]] (by simp)
  simpa [List.range'] using h

/-- C3 counterexample: on a response carrying an explicit `next_page` number
but no `links.next` URL, the spec's preferred-field rule says continue,
while the code's `hasNextPage` terminates — the fetcher never consults a
next-page-number field. -/
theorem continuation_ignores_next_page_counterexample :
    hasNextPage
        (.obj [("time_entries", .arr []), ("next_page", .num 2), ("links", .obj [])])
      = false ∧
    specContinuation
        (.obj [("time_entries", .arr []), ("next_page", .num 2), ("links", .obj [])])
      = true :=
  ⟨rfl, rfl⟩

/-- C3 amended: after a successful page the fetcher continues exactly when
the response object's `links` value is an object whose `next` field is
present and non-null; an explicit next-page-number field is never
consulted (prepending one to the response changes nothing). -/
theorem hasNextPage_links_only :
    (∀ data : Json, hasNextPage data = true ↔
      ∃ kvs lkvs v, data = .obj kvs ∧ assocGet kvs "links" = some (.obj lkvs) ∧
        assocGet lkvs "next" = some v ∧ v ≠ .null) ∧
    (∀ (v : Json) (kvs : List (String × Json)),
      hasNextPage (.obj (("next_page", v) :: kvs)) = hasNextPage (.obj kvs)) := by
  constructor
  · intro data
    constructor
    · intro h
      cases data with
      | obj kvs =>
          simp only [hasNextPage] at h
          cases h1 : assocGet kvs "links" with
          | none => simp [h1] at h
          | some l =>
              cases l with
              | obj lkvs =>
                  cases h2 : assocGet lkvs "next" with
                  | none => simp [h1, h2] at h
                  | some v =>
                      simp only [h1, h2] at h
                      exact ⟨kvs, lkvs, v, rfl, h1, h2,
                        (Json.isNull_false_iff v).mp (by simpa using h)⟩
              | null => simp [h1] at h
              | bool b => simp [h1] at h
              | num n => simp [h1] at h
              | str s => simp [h1] at h
              | arr xs => simp [h1] at h
      | null => simp [hasNextPage] at h
      | bool b => simp [hasNextPage] at h
      | num n => simp [hasNextPage] at h
      | str s => simp [hasNextPage] at h
      | arr xs => simp [hasNextPage] at h
    · rintro ⟨kvs, lkvs, v, rfl, h1, h2, h3⟩
      simp only [hasNextPage, h1, h2]
      simpa using (Json.isNull_false_iff v).mpr h3
  · intro v kvs
    have hne : ("next_page" : String) ≠ "links" := by decide
    simp [hasNextPage, assocGet, hne]

/-- Two-page server whose first page has no resource key (only pagination
metadata) but does cue a next page. -/
def c4server : Nat → HttpResult
  | 1 => .ok (.obj [("links", .obj [("next", .str "page2")])])
  | 2 => .ok (.obj [("users", .arr [.num 7]), ("links", .obj [])])
  | _ => .httpErr 404

/-- C4 counterexample: although the first page has no top-level array key,
the fetcher does not treat it as the last page — it requests page 2 and
returns its record, contradicting "if no such key exists … terminates with
the records accumulated so far". -/
theorem missing_resource_key_does_not_terminate_counterexample :
    findResourceKey (.obj [("links", .obj [("next", .str "page2")])]) = none ∧
    fetchEndpoint c4server "users" 2 = some ([1, 2], .ok [.num 7]) :=
  ⟨rfl, rfl⟩

/-- C4 amended: a successful page contributes exactly the elements of the
array under the first top-level non-`"links"` array-valued key (nothing
when no such key exists), and whether the loop terminates is decided
solely by the `links.next` cue — not by the presence or emptiness of the
records array. -/
theorem fetch_records_extraction (server : Nat → HttpResult) (ep : String)
    (fuel page : Nat) (trace : List Nat) (acc : List Json) (data : Json)
    (hs : server page = .ok data) :
    (findResourceKey data = none → recordsOf data = []) ∧
    (∀ kvs k xs, data = .obj kvs → findResourceKey data = some k →
        assocGet kvs k = some (.arr xs) → recordsOf data = xs) ∧
    (hasNextPage data = true →
      fetchLoop server ep (fuel + 1) page trace acc
        = fetchLoop server ep fuel (page + 1) (trace ++ [page]) (acc ++ recordsOf data)) ∧
    (hasNextPage data = false →
      fetchLoop server ep (fuel + 1) page trace acc
        = some (trace ++ [page], .ok (acc ++ recordsOf data))) := by
  refine ⟨?_, ?_, ?_, ?_⟩
  · intro h
    cases data <;> simp [recordsOf, h] at h ⊢
  · rintro kvs k xs rfl hk hget
    simp [recordsOf, hk, hget]
  · intro h
    rw [fetchLoop, hs]
    simp [h]
  · intro h
    rw [fetchLoop, hs]
    simp [h]

/-- Witness for C4 amended: a single page holding one record under `users`
and no further-page cue yields exactly that record. -/
theorem fetch_records_extraction_witness :
    fetchLoop (fun _ => .ok (.obj [("users", .arr [.num 5]), ("links", .obj [])]))
        "users" 1 1 [] []
      = some ([1], .ok [.num 5]) := by
  have h := fetch_records_extraction
    (fun _ => .ok (.obj [("users", .arr [.num 5]), ("links", .obj [])]))
    "users" 0 1 [] [] (.obj [("users", .arr [.num 5]), ("links", .obj [])]) rfl
  simpa using h.2.2.2 rfl

/-- Server that always answers 429 Too Many Requests. -/
def c5server : Nat → HttpResult := fun _ => .httpErr 429

/-- C5 counterexample: the very first 429 makes `fetchEndpoint` fail at once
with the generic fetch error — exactly one request is issued even though
fuel for five is available, so no `Retry-After` suspension, no retry of the
same page and no dedicated RateLimitExceeded error exist. -/
theorem rate_limit_no_retry_counterexample :
    fetchEndpoint c5server "time_entries" 5
      = some ([1], .error (.fetchFailed "time_entries" (some 429))) := rfl

/-- C5 amended: a 429 response makes the fetch fail immediately with the
generic `Failed to fetch <endpoint>: <status>` error carrying status 429;
the page is not retried. -/
theorem fetch_429_fails_immediately (server : Nat → HttpResult) (ep : String)
    (fuel page : Nat) (trace : List Nat) (acc : List Json)
    (h : server page = .httpErr 429) :
    fetchLoop server ep (fuel + 1) page trace acc
      = some (trace ++ [page], .error (.fetchFailed ep (some 429))) := by
  rw [fetchLoop, h]
  simp

/-- Witness for C5 amended at a concrete always-429 server. -/
theorem fetch_429_fails_immediately_witness :
    fetchLoop c5server "projects" 1 1 [] []
      = some ([1], .error (.fetchFailed "projects" (some 429))) := by
  simpa using fetch_429_fails_immediately c5server "projects" 0 1 [] [] rfl

/-- Server whose requests always fail at the network level. -/
def c6server : Nat → HttpResult := fun _ => .netErr

/-- C6 counterexample: the very first network-level failure makes
`fetchEndpoint` fail at once — one request, no exponential backoff, no
retry, and the error is the generic fetch error (whose status part is
`undefined`), not a dedicated NetworkError. -/
theorem network_error_no_retry_counterexample :
    fetchEndpoint c6server "users" 5
      = some ([1], .error (.fetchFailed "users" none)) := rfl

/-- C6 amended: a network-level failure makes the fetch fail immediately
with the generic error carrying the endpoint (and no status); the page is
not retried. -/
theorem fetch_network_error_fails_immediately (server : Nat → HttpResult)
    (ep : String) (fuel page : Nat) (trace : List Nat) (acc : List Json)
    (h : server page = .netErr) :
    fetchLoop server ep (fuel + 1) page trace acc
      = some (trace ++ [page], .error (.fetchFailed ep none)) := by
  rw [fetchLoop, h]

/-- Witness for C6 amended at a concrete always-failing server. -/
theorem fetch_network_error_fails_immediately_witness :
    fetchLoop c6server "clients" 1 1 [] []
      = some ([1], .error (.fetchFailed "clients" none)) := by
  simpa using fetch_network_error_fails_immediately c6server "clients" 0 1 [] [] rfl

/-- Per-endpoint fetch outcomes for the C7 counterexample run: the first
cataloged endpoint fails with the 401 fetch error, `users` succeeds with
one record, everything else is empty. -/
def c7fetch (e : String) : Except FetchErr (List Json) :=
  if e = "company" then .error (.fetchFailed "company" (some 401))
  else if e = "users" then .ok [.num 1]
  else .ok []

/-- C7 counterexample: a 401 on the `company` endpoint does not terminate
the run — `backupEndpoint` catches it like any other failure and the run
proceeds through the remaining endpoints, still writing `users.json`. -/
theorem endpoint_auth_failure_scoped_counterexample :
    backupAll (.ok [⟨123, "Acme", "harvest"⟩]) (fun _ => c7fetch)
      = .ok [("123-Acme",
          [("account.json", accountJson ⟨123, "Acme", "harvest"⟩),
           ("users.json", .arr [.num 1])])] := rfl

/-- C7 amended: only a failure of account discovery (`getAccounts`, e.g. a
401 there) terminates the whole run; once accounts are known the run always
completes, a per-endpoint failure — authentication failures included — is
scoped to that single endpoint (the loop just moves on with the directory
untouched), and a 401 page response makes `fetchEndpoint` raise immediately
with zero retries, as the generic fetch error rather than a dedicated
AuthenticationError. -/
theorem run_failure_scoping :
    (∀ (msg : String) (fetch : HarvestAccount → String → Except FetchErr (List Json)),
      backupAll (.error msg) fetch = .error msg) ∧
    (∀ (accounts : List HarvestAccount)
       (fetch : HarvestAccount → String → Except FetchErr (List Json)),
      ∃ r, backupAll (.ok accounts) fetch = .ok r) ∧
    (∀ (fetch : String → Except FetchErr (List Json)) (e : String)
       (rest : List String) (fs : List (String × Json)) (err : FetchErr),
      fetch e = .error err →
      backupEndpoints fetch (e :: rest) fs = backupEndpoints fetch rest fs) ∧
    (∀ (server : Nat → HttpResult) (ep : String) (fuel page : Nat)
       (trace : List Nat) (acc : List Json),
      server page = .httpErr 401 →
      fetchLoop server ep (fuel + 1) page trace acc
        = some (trace ++ [page], .error (.fetchFailed ep (some 401)))) := by
  refine ⟨fun msg fetch => rfl, fun accounts fetch => ⟨_, rfl⟩, ?_, ?_⟩
  · intro fetch e rest fs err h
    simp [backupEndpoints, backupEndpointFs, h]
  · intro server ep fuel page trace acc h
    rw [fetchLoop, h]
    simp

/-- Witness for C7 amended: discovery failure aborts; an endpoint whose
fetch failed with 401 contributes nothing and the loop continues; a 401
page makes the fetch loop raise at once. -/
theorem run_failure_scoping_witness :
    backupAll (.error "Failed to fetch accounts: 401 Unauthorized") (fun _ _ => .ok [])
      = .error "Failed to fetch accounts: 401 Unauthorized" ∧
    backupEndpoints (fun _ => .error (.fetchFailed "company" (some 401)))
        ["company"] [] = [] ∧
    fetchLoop (fun _ => .httpErr 401) "users" 1 1 [] []
      = some ([1], .error (.fetchFailed "users" (some 401))) := by
  obtain ⟨h1, _, h3, h4⟩ := run_failure_scoping
  refine ⟨h1 _ _, ?_, ?_⟩
  · rw [h3 _ "company" [] [] _ rfl]; rfl
  · simpa using h4 _ "users" 0 1 [] [] rfl

/-- C8. A 404 response terminates the fetch normally with the records
accumulated so far; in particular a 404 on the very first request yields an
empty sequence and no error. -/
theorem fetch_404_returns_accumulated (server : Nat → HttpResult) (ep : String)
    (fuel page : Nat) (trace : List Nat) (acc : List Json) :
    (server page = .httpErr 404 →
      fetchLoop server ep (fuel + 1) page trace acc
        = some (trace ++ [page], .ok acc)) ∧
    (server 1 = .httpErr 404 →
      fetchEndpoint server ep (fuel + 1) = some ([1], .ok [])) := by
  constructor
  · intro h
    rw [fetchLoop, h]
    simp
  · intro h
    rw [fetchEndpoint, fetchLoop, h]
    simp

/-- Witness for C8 at a server that 404s every request. -/
theorem fetch_404_returns_accumulated_witness :
    fetchEndpoint (fun _ => .httpErr 404) "nonexistent" 1 = some ([1], .ok []) := by
  exact (fetch_404_returns_accumulated (fun _ => .httpErr 404) "nonexistent" 0 1 [] []).2 rfl

/-- C9 counterexample: a successful fetch of zero records writes nothing —
a stale `users.json` from a prior run is left in place, contradicting
"written unconditionally — including when the fetch returns zero
records". -/
theorem empty_fetch_leaves_stale_file_counterexample :
    backupEndpointFs [("users.json", .arr [.num 99])] (.ok []) "users"
      = [("users.json", .arr [.num 99])] := rfl

/-- C9 amended: the endpoint's JSON file is written (overwriting any previous
contents) exactly when the fetch succeeds with at least one record; a
successful fetch of zero records, like a failed fetch, leaves the directory
— stale file included — untouched. -/
theorem json_written_iff_nonempty :
    (∀ (fs : List (String × Json)) (ep : String) (data : List Json),
      data ≠ [] →
      assocGet (backupEndpointFs fs (.ok data) ep) (getEndpointFilename ep)
        = some (.arr data)) ∧
    (∀ (fs : List (String × Json)) (ep : String),
      backupEndpointFs fs (.ok []) ep = fs) ∧
    (∀ (fs : List (String × Json)) (ep : String) (err : FetchErr),
      backupEndpointFs fs (.error err) ep = fs) := by
  refine ⟨?_, fun fs ep => rfl, fun fs ep err => rfl⟩
  intro fs ep data hne
  have hlen : 0 < data.length := List.length_pos.mpr hne
  simp only [backupEndpointFs, if_pos hlen, writeFile]
  exact assocGet_assocSet_self fs (getEndpointFilename ep) (.arr data)

/-- Witness for C9 amended: one record overwrites the stale file. -/
theorem json_written_iff_nonempty_witness :
    assocGet (backupEndpointFs [("users.json", .arr [.num 99])]
        (.ok [.num 1]) "users") (getEndpointFilename "users")
      = some (.arr [.num 1]) := by
  exact json_written_iff_nonempty.1 [("users.json", .arr [.num 99])] "users"
    [.num 1] (by simp)

/-- C10. Path safety of generated names: the account directory name is the
sanitized `"<id>-<name>"` whose every character is an ASCII letter, digit,
underscore or hyphen (so never a path separator), and the endpoint filename
is the endpoint path with every `/` replaced by `_` plus `.json`, which
likewise contains no `/`. -/
theorem path_safe_names :
    (∀ a : HarvestAccount,
      accountDirName a = sanitizeFilename (toString a.id ++ "-" ++ a.name)) ∧
    (∀ s : String, ∀ c ∈ (sanitizeFilename s).data,
      c.isAlpha = true ∨ c.isDigit = true ∨ c = '_' ∨ c = '-') ∧
    (∀ s : String, '/' ∉ (sanitizeFilename s).data) ∧
    (∀ e : String, (getEndpointFilename e).data
      = e.data.map (fun c => if c = '/' then '_' else c) ++ ".json".data) ∧
    (∀ e : String, '/' ∉ (getEndpointFilename e).data) := by
  have hsan : ∀ s : String, ∀ c ∈ (sanitizeFilename s).data,
      c.isAlpha = true ∨ c.isDigit = true ∨ c = '_' ∨ c = '-' := by
    intro s c hc
    simp only [sanitizeFilename] at hc
    obtain ⟨c0, _, rfl⟩ := List.mem_map.mp hc
    by_cases h : c0.isAlpha || c0.isDigit || c0 = '_' || c0 = '-'
    · rw [sanitizeChar, if_pos h]
      simpa [or_assoc] using h
    · rw [sanitizeChar, if_neg h]
      simp
  refine ⟨fun a => rfl, hsan, ?_, fun e => rfl, ?_⟩
  · intro s hc
    rcases hsan s '/' hc with h | h | h | h <;> simp_all
  · intro e hc
    simp only [getEndpointFilename] at hc
    rw [String.data_append] at hc
    rcases List.mem_append.mp hc with h | h
    · obtain ⟨c0, _, heq⟩ := List.mem_map.mp h
      by_cases h0 : c0 = '/'
      · rw [if_pos h0] at heq; exact absurd heq (by decide)
      · rw [if_neg h0] at heq; exact h0 heq
    · exact absurd h (by decide)

/-- Witness for C10: the sanitized account-directory component and the
endpoint filename of `users/me` contain no path separator, and a sanitized
character is inside the allowed alphabet. -/
theorem path_safe_names_witness :
    '/' ∉ (sanitizeFilename "123-Test/Account:With*Special?Chars").data ∧
    '/' ∉ (getEndpointFilename "users/me").data ∧
    (Char.isAlpha '_' = true ∨ Char.isDigit '_' = true ∨ '_' = '_' ∨ '_' = '-') := by
  refine ⟨path_safe_names.2.2.1 _, path_safe_names.2.2.2.2 _, ?_⟩
  exact path_safe_names.2.1 "a/b" '_' (by decide)

/-- C2. `maybe_write` returns `written` and writes the file, sets the
manifest entry to the content's hash and persists the manifest exactly when
the manifest has no entry for the artifact or its entry differs from the
hash; otherwise it returns `skipped` leaving the whole state unchanged.
Consequently, calling it twice with identical content (starting from a
manifest not already holding that hash) returns `written` then `skipped`,
with the destination file holding the content after both calls. -/
theorem maybe_write_spec (hash : List Nat → String) (aid : String)
    (content : List Nat) (dest : String) (st : ArtifactState) :
    ((maybe_write hash aid content dest st).1 = .written ↔
      assocGet st.manifest aid ≠ some (hash content)) ∧
    ((maybe_write hash aid content dest st).1 = .skipped →
      (maybe_write hash aid content dest st).2 = st) ∧
    ((maybe_write hash aid content dest st).1 = .written →
      assocGet (maybe_write hash aid content dest st).2.fs dest = some content ∧
      assocGet (maybe_write hash aid content dest st).2.manifest aid
        = some (hash content) ∧
      (maybe_write hash aid content dest st).2.persistedManifest
        = (maybe_write hash aid content dest st).2.manifest) ∧
    (assocGet st.manifest aid ≠ some (hash content) →
      (maybe_write hash aid content dest st).1 = .written ∧
      (maybe_write hash aid content dest
        (maybe_write hash aid content dest st).2).1 = .skipped ∧
      (maybe_write hash aid content dest
        (maybe_write hash aid content dest st).2).2
        = (maybe_write hash aid content dest st).2 ∧
      assocGet (maybe_write hash aid content dest st).2.fs dest
        = some content) := by
  have hwrite : assocGet st.manifest aid ≠ some (hash content) →
      maybe_write hash aid content dest st
        = (.written,
            { manifest := assocSet st.manifest aid (hash content),
              fs := assocSet st.fs dest content,
              persistedManifest := assocSet st.manifest aid (hash content) }) := by
    intro hne
    rw [maybe_write]
    cases hm : assocGet st.manifest aid with
    | none => simp
    | some d =>
        rw [hm] at hne
        have hd : d ≠ hash content := fun h => hne (by rw [h])
        simp [hd]
  have hskip : assocGet st.manifest aid = some (hash content) →
      maybe_write hash aid content dest st = (.skipped, st) := by
    intro hm
    rw [maybe_write, hm]
    simp
  by_cases hcase : assocGet st.manifest aid = some (hash content)
  · rw [hskip hcase]
    refine ⟨by simp [hcase], fun _ => rfl, by simp, fun hne => absurd hcase hne⟩
  · rw [hwrite hcase]
    refine ⟨by simp [hcase], by simp, fun _ => ?_, fun _ => ?_⟩
    · exact ⟨assocGet_assocSet_self _ _ _, assocGet_assocSet_self _ _ _, rfl⟩
    · have hs2 : maybe_write hash aid content dest
          { manifest := assocSet st.manifest aid (hash content),
            fs := assocSet st.fs dest content,
            persistedManifest := assocSet st.manifest aid (hash content) }
          = (.skipped,
            { manifest := assocSet st.manifest aid (hash content),
              fs := assocSet st.fs dest content,
              persistedManifest := assocSet st.manifest aid (hash content) }) := by
        rw [maybe_write]
        simp [assocGet_assocSet_self]
      exact ⟨rfl, by rw [hs2], by rw [hs2], assocGet_assocSet_self _ _ _⟩

/-- Witness for C2: writing bytes `[1, 2, 3]` for a fresh artifact id and
then again with the same content yields `written` then `skipped`, the file
holding the bytes. -/
theorem maybe_write_spec_witness :
    (maybe_write (fun bs => toString bs.length) "invoice:300" [1, 2, 3]
        "artifacts/300.pdf" ⟨[], [], []⟩).1 = .written ∧
    (maybe_write (fun bs => toString bs.length) "invoice:300" [1, 2, 3]
        "artifacts/300.pdf"
        (maybe_write (fun bs => toString bs.length) "invoice:300" [1, 2, 3]
          "artifacts/300.pdf" ⟨[], [], []⟩).2).1 = .skipped ∧
    assocGet (maybe_write (fun bs => toString bs.length) "invoice:300" [1, 2, 3]
        "artifacts/300.pdf" ⟨[], [], []⟩).2.fs "artifacts/300.pdf"
      = some [1, 2, 3] := by
  have h := (maybe_write_spec (fun bs => toString bs.length) "invoice:300"
    [1, 2, 3] "artifacts/300.pdf" ⟨[], [], []⟩).2.2.2 (by simp [assocGet])
  exact ⟨h.1, h.2.1, h.2.2.2⟩

end HarvestBackup
